import Mathlib

/-!
Shallow embedding of the windowed log-tailing engine of `true-love-n`
(the `useLokiLogs` composable, `src/unnamed/part_002`).

The repository carries two near-duplicate versions of the engine: a
"window version" (attached to `window.useLokiLogs`, fetch limit 50,
backward initial load, backward older-load) and a "module version"
(ES-module `useLokiLogs`, fetch limit 500, forward initial load,
forward older-load).  The merge/dedup/bounds core (`fetchLokiLogs`'s
response handling) is textually identical in both, so it is embedded
once as `fetchUpdate`; the three constants in which the versions
differ are collected in a `Version` record.

The backend (`api.fetchLokiLogs`) is modelled as an oracle
`LokiQuery → FetchOutcome`; each operation returns the list of
queries it issued so that claims about outbound fetches can be
stated.  The `await` in `fetchLokiLogs` is the only suspension
point of each operation, so an operation is split into a `Phase1`
(everything before the response arrives: guard check, in-flight
flag, query computation) and a `Phase2` (response handling and flag
reset); the sequential composition of the phases is the atomic
operation used everywhere else.
-/

namespace TrueLove

/-- Scan direction of a Loki range query. -/
inductive Direction
  | forward
  | backward
  deriving DecidableEq

/-- One log line: `{ timestamp, raw, service, time_str }`. -/
structure LogEntry where
  timestamp : Int
  raw : String
  service : String
  time_str : String
  deriving DecidableEq

/-- The parameters of one outbound `api.fetchLokiLogs(startMs, endMs, limit, direction)` call. -/
structure LokiQuery where
  startMs : Int
  endMs : Int
  limit : Nat
  direction : Direction
  deriving DecidableEq

/-- What one `await api.fetchLokiLogs(...)` can produce, as seen by the composable:
a well-formed response with a `logs` array, a response without `data`/`data.logs`
(the `if (result.data && result.data.logs)` test fails), or a rejection caught by
the `try`/`catch` (a `FetchError`). -/
inductive FetchOutcome
  | ok (logs : List LogEntry)
  | malformed
  | fetchError (msg : String)
  deriving DecidableEq

/-- The reactive state owned by one `useLokiLogs` instance (scroll-position and
timer handles are not part of the data model). -/
structure LokiState where
  lokiServices : List String
  lokiServiceFilter : List String
  lokiLogs : List LogEntry
  lokiLoading : Bool
  lokiLoadingOlder : Bool
  lokiLoadingNewer : Bool
  lokiAutoScroll : Bool
  lokiPolling : Bool
  lokiCanLoadOlder : Bool
  lokiEarliestMs : Int
  lokiLatestMs : Int
  deriving DecidableEq

/-- The state right after `useLokiLogs` is set up (`ref(...)` initialisers). -/
def initialLokiState : LokiState where
  lokiServices := ["ai", "base", "server"]
  lokiServiceFilter := ["ai", "base", "server"]
  lokiLogs := []
  lokiLoading := false
  lokiLoadingOlder := false
  lokiLoadingNewer := false
  lokiAutoScroll := true
  lokiPolling := false
  lokiCanLoadOlder := true
  lokiEarliestMs := 0
  lokiLatestMs := 0

/-- The deduplication key `l.timestamp + '|' + l.raw`. -/
def entryKey (l : LogEntry) : String :=
  toString l.timestamp ++ "|" ++ l.raw

/-- Timestamp order used by `lokiLogs.value.sort((a, b) => a.timestamp - b.timestamp)`.
JavaScript's `Array.prototype.sort` is stable, so the sort is modelled by the
stable `List.insertionSort`. -/
def tsLE (a b : LogEntry) : Prop :=
  a.timestamp ≤ b.timestamp

instance : DecidableRel tsLE := fun a b =>
  inferInstanceAs (Decidable (a.timestamp ≤ b.timestamp))

instance : IsTotal LogEntry tsLE :=
  ⟨fun a b => le_total a.timestamp b.timestamp⟩

instance : IsTrans LogEntry tsLE :=
  ⟨fun _ _ _ hab hbc => le_trans hab hbc⟩

/-- The response handling of `fetchLokiLogs` (identical in both versions):
dedup against the existing keys, prepend or append the unique new entries,
re-sort by timestamp, recompute the bounds, and return the number of newly
added entries; an empty `logs` array with `prepend` clears `lokiCanLoadOlder`;
a malformed response or a caught `FetchError` returns 0 and changes nothing. -/
def fetchUpdate (st : LokiState) (res : FetchOutcome) (prepend : Bool) : LokiState × Nat :=
  match res with
  | .fetchError _ => (st, 0)
  | .malformed => (st, 0)
  | .ok newLogs =>
    if newLogs.isEmpty then
      (if prepend then { st with lokiCanLoadOlder := false } else st, 0)
    else
      let existingKeys := st.lokiLogs.map entryKey
      let uniqueNewLogs := newLogs.filter fun l => !existingKeys.contains (entryKey l)
      if uniqueNewLogs.isEmpty then
        (st, 0)
      else
        let merged := if prepend then uniqueNewLogs ++ st.lokiLogs else st.lokiLogs ++ uniqueNewLogs
        let sorted := List.insertionSort tsLE merged
        let st1 := { st with lokiLogs := sorted }
        let st2 :=
          if sorted.length > 0 then
            { st1 with
              lokiEarliestMs := ((sorted.head?.map LogEntry.timestamp).getD st.lokiEarliestMs)
              lokiLatestMs := ((sorted.getLast?.map LogEntry.timestamp).getD st.lokiLatestMs) }
          else st1
        (st2, uniqueNewLogs.length)

/-- The three constants in which the two engine versions differ. -/
structure Version where
  limit : Nat
  initDirection : Direction
  olderDirection : Direction

/-- `window.useLokiLogs`: limit 50, backward initial load, backward older-load. -/
def windowVersion : Version :=
  ⟨50, Direction.backward, Direction.backward⟩

/-- module `useLokiLogs`: limit 500, forward initial load, forward older-load. -/
def moduleVersion : Version :=
  ⟨500, Direction.forward, Direction.forward⟩

/-- `60 * 60 * 1000` milliseconds — the 1-hour window used by all three loads. -/
def oneHourMs : Int := 60 * 60 * 1000

/-- `initLokiLogs`: set `lokiLoading`, empty `lokiLogs`, reset `lokiCanLoadOlder`,
fetch `[now − 1h, now]` with the version's initial direction and `prepend = false`,
then clear `lokiLoading`.  Returns the new state and the issued queries. -/
def initLokiLogs (v : Version) (st : LokiState) (now : Int)
    (backend : LokiQuery → FetchOutcome) : LokiState × List LokiQuery :=
  let st0 := { st with lokiLoading := true, lokiLogs := [], lokiCanLoadOlder := true }
  let oneHourAgo := now - oneHourMs
  let q : LokiQuery := ⟨oneHourAgo, now, v.limit, v.initDirection⟩
  let (st1, _) := fetchUpdate st0 (backend q) false
  ({ st1 with lokiLoading := false }, [q])

/-- `loadOlderLogs` up to its `await`: the guard
`lokiLoadingOlder || !lokiCanLoadOlder || lokiLogs.length === 0` (no query when
it trips), setting `lokiLoadingOlder`, and computing `endMs = earliest − 1`,
`startMs = endMs − 1h`. -/
def loadOlderPhase1 (v : Version) (st : LokiState) : Option (LokiQuery × LokiState) :=
  if st.lokiLoadingOlder || !st.lokiCanLoadOlder || st.lokiLogs.length == 0 then
    none
  else
    let endMs := st.lokiEarliestMs - 1
    let startMs := endMs - oneHourMs
    some (⟨startMs, endMs, v.limit, v.olderDirection⟩, { st with lokiLoadingOlder := true })

/-- `loadOlderLogs` after its `await`: apply the prepend merge, set
`lokiCanLoadOlder = false` when the merge count is 0, clear `lokiLoadingOlder`. -/
def loadOlderPhase2 (st : LokiState) (res : FetchOutcome) : LokiState :=
  let (st1, count) := fetchUpdate st res true
  let st2 := if count == 0 then { st1 with lokiCanLoadOlder := false } else st1
  { st2 with lokiLoadingOlder := false }

/-- The whole `loadOlderLogs` operation (both phases run back to back). -/
def loadOlderLogs (v : Version) (st : LokiState)
    (backend : LokiQuery → FetchOutcome) : LokiState × List LokiQuery :=
  match loadOlderPhase1 v st with
  | none => (st, [])
  | some (q, st1) => (loadOlderPhase2 st1 (backend q), [q])

/-- `loadNewerLogs` up to its `await`: the `lokiLoadingNewer` guard (no query and
an `undefined` return when it trips), setting `lokiLoadingNewer`, and computing
`startMs = latest > 0 ? latest + 1 : now − 1h`, `endMs = now`. -/
def loadNewerPhase1 (v : Version) (st : LokiState) (now : Int) :
    Option (LokiQuery × LokiState) :=
  if st.lokiLoadingNewer then
    none
  else
    let startMs := if st.lokiLatestMs > 0 then st.lokiLatestMs + 1 else now - oneHourMs
    let endMs := now
    some (⟨startMs, endMs, v.limit, Direction.forward⟩, { st with lokiLoadingNewer := true })

/-- `loadNewerLogs` after its `await`: apply the append merge, clear
`lokiLoadingNewer`, and return the merge count. -/
def loadNewerPhase2 (st : LokiState) (res : FetchOutcome) : LokiState × Nat :=
  let (st1, count) := fetchUpdate st res false
  ({ st1 with lokiLoadingNewer := false }, count)

/-- The whole `loadNewerLogs` operation; `none` is the `undefined` returned on
the guard path. -/
def loadNewerLogs (v : Version) (st : LokiState) (now : Int)
    (backend : LokiQuery → FetchOutcome) : LokiState × Option Nat × List LokiQuery :=
  match loadNewerPhase1 v st now with
  | none => (st, none, [])
  | some (q, st1) =>
    let (st2, count) := loadNewerPhase2 st1 (backend q)
    (st2, some count, [q])

/-- `clearLokiLogs`: empty the sequence, zero both bounds, reset `lokiCanLoadOlder`. -/
def clearLokiLogs (st : LokiState) : LokiState :=
  { st with
    lokiLogs := []
    lokiEarliestMs := 0
    lokiLatestMs := 0
    lokiCanLoadOlder := true }

/-- `toggleServiceFilter(svc)`: remove `svc` (first occurrence, as
`splice(indexOf(svc), 1)` does) when present and the filter holds more than one
service; push it when absent. -/
def toggleServiceFilter (st : LokiState) (svc : String) : LokiState :=
  if st.lokiServiceFilter.contains svc then
    if st.lokiServiceFilter.length > 1 then
      { st with lokiServiceFilter := st.lokiServiceFilter.erase svc }
    else
      st
  else
    { st with lokiServiceFilter := st.lokiServiceFilter ++ [svc] }

/-- The computed `filteredLokiLogs`. -/
def filteredLokiLogs (st : LokiState) : List LogEntry :=
  if st.lokiServiceFilter.length == st.lokiServices.length then
    st.lokiLogs
  else
    st.lokiLogs.filter fun log => st.lokiServiceFilter.contains log.service

/-- One externally triggerable action on the engine state. -/
inductive Act
  | init (now : Int) (backend : LokiQuery → FetchOutcome)
  | older (backend : LokiQuery → FetchOutcome)
  | newer (now : Int) (backend : LokiQuery → FetchOutcome)
  | clear
  | toggle (svc : String)

/-- Apply one action to the state. -/
def stepAct (v : Version) (st : LokiState) : Act → LokiState
  | .init now backend => (initLokiLogs v st now backend).1
  | .older backend => (loadOlderLogs v st backend).1
  | .newer now backend => (loadNewerLogs v st now backend).1
  | .clear => clearLokiLogs st
  | .toggle svc => toggleServiceFilter st svc

/-- Apply a sequence of actions, left to right. -/
def runActs (v : Version) (st : LokiState) (acts : List Act) : LokiState :=
  acts.foldl (stepAct v) st

/-- A sequence of Store-level merges (`mergeIn` in the spec's vocabulary): each
element is the fetch outcome handed to the merge and its `prepend` flag. -/
def applyMerges (st : LokiState) (ops : List (FetchOutcome × Bool)) : LokiState :=
  ops.foldl (fun s op => (fetchUpdate s op.1 op.2).1) st

/-! ### Basic lemmas about `fetchUpdate` -/

theorem fetchUpdate_fetchError (st : LokiState) (msg : String) (p : Bool) :
    fetchUpdate st (.fetchError msg) p = (st, 0) := rfl

theorem fetchUpdate_malformed (st : LokiState) (p : Bool) :
    fetchUpdate st .malformed p = (st, 0) := rfl

/-- `fetchUpdate` never touches the service lists, the loading flags, the
auto-scroll flag or the polling flag. -/
theorem fetchUpdate_preserves (st : LokiState) (res : FetchOutcome) (p : Bool) :
    (fetchUpdate st res p).1.lokiServices = st.lokiServices ∧
    (fetchUpdate st res p).1.lokiServiceFilter = st.lokiServiceFilter ∧
    (fetchUpdate st res p).1.lokiLoading = st.lokiLoading ∧
    (fetchUpdate st res p).1.lokiLoadingOlder = st.lokiLoadingOlder ∧
    (fetchUpdate st res p).1.lokiLoadingNewer = st.lokiLoadingNewer ∧
    (fetchUpdate st res p).1.lokiAutoScroll = st.lokiAutoScroll ∧
    (fetchUpdate st res p).1.lokiPolling = st.lokiPolling := by
  cases res with
  | fetchError msg => exact ⟨rfl, rfl, rfl, rfl, rfl, rfl, rfl⟩
  | malformed => exact ⟨rfl, rfl, rfl, rfl, rfl, rfl, rfl⟩
  | ok newLogs =>
    simp only [fetchUpdate]
    repeat' split
    all_goals exact ⟨rfl, rfl, rfl, rfl, rfl, rfl, rfl⟩

/-- An append merge (`prepend = false`) never changes `lokiCanLoadOlder`. -/
theorem fetchUpdate_append_canLoadOlder (st : LokiState) (res : FetchOutcome) :
    (fetchUpdate st res false).1.lokiCanLoadOlder = st.lokiCanLoadOlder := by
  cases res with
  | fetchError msg => rfl
  | malformed => rfl
  | ok newLogs =>
    simp only [fetchUpdate]
    repeat' split
    all_goals simp_all

/-! ### Sortedness -/

/-- A merge leaves the entry sequence sorted whenever it was sorted before:
the sequence is either untouched or freshly re-sorted. -/
theorem fetchUpdate_sorted (st : LokiState) (res : FetchOutcome) (p : Bool)
    (h : st.lokiLogs.Sorted tsLE) :
    ((fetchUpdate st res p).1.lokiLogs).Sorted tsLE := by
  cases res with
  | fetchError msg => exact h
  | malformed => exact h
  | ok newLogs =>
    simp only [fetchUpdate]
    repeat' split
    all_goals first
      | exact h
      | exact List.sorted_insertionSort tsLE _

/-- Sortedness is invariant under any sequence of merges. -/
theorem applyMerges_sorted (ops : List (FetchOutcome × Bool)) :
    ∀ st : LokiState, st.lokiLogs.Sorted tsLE →
      ((applyMerges st ops).lokiLogs).Sorted tsLE := by
  induction ops with
  | nil => exact fun st h => h
  | cons op ops ih =>
    intro st h
    exact ih _ (fetchUpdate_sorted st op.1 op.2 h)

/-- In a sorted sequence the head carries the least timestamp. -/
theorem sorted_head_le {l : List LogEntry} (h : l.Sorted tsLE) (hne : l ≠ []) :
    ∀ x ∈ l, (l.head hne).timestamp ≤ x.timestamp := by
  cases l with
  | nil => cases hne rfl
  | cons a t =>
    intro x hx
    rcases List.mem_cons.mp hx with rfl | hx
    · exact le_refl _
    · exact List.rel_of_sorted_cons h x hx

/-- In a sorted sequence the last element carries the greatest timestamp. -/
theorem sorted_le_getLast :
    ∀ {l : List LogEntry}, l.Sorted tsLE → ∀ (hne : l ≠ []),
      ∀ x ∈ l, x.timestamp ≤ (l.getLast hne).timestamp := by
  intro l
  induction l with
  | nil => intro _ hne; cases hne rfl
  | cons a t ih =>
    intro h hne x hx
    cases t with
    | nil =>
      rcases List.mem_cons.mp hx with rfl | hx
      · exact le_refl _
      · cases hx
    | cons b t2 =>
      rw [List.getLast_cons (List.cons_ne_nil b t2)]
      rcases List.mem_cons.mp hx with rfl | hx
      · exact List.rel_of_sorted_cons h _ (List.getLast_mem (List.cons_ne_nil b t2))
      · exact ih h.of_cons (List.cons_ne_nil b t2) x hx

/-- C5: for every sequence of merges, with any mix of prepend and append, the
Store's entry sequence afterward is non-decreasing by timestamp. -/
theorem claim5_sort_invariant (ops : List (FetchOutcome × Bool)) :
    ((applyMerges initialLokiState ops).lokiLogs).Pairwise
      (fun a b => a.timestamp ≤ b.timestamp) :=
  applyMerges_sorted ops initialLokiState List.Pairwise.nil

/-! ### A case characterisation of a successful-response merge -/

/-- The set of entries a batch is deduplicated against. -/
def uniqueOf (st : LokiState) (batch : List LogEntry) : List LogEntry :=
  batch.filter fun l => !(st.lokiLogs.map entryKey).contains (entryKey l)

/-- The concatenation step of the merge. -/
def mergedOf (st : LokiState) (batch : List LogEntry) (p : Bool) : List LogEntry :=
  if p then uniqueOf st batch ++ st.lokiLogs else st.lokiLogs ++ uniqueOf st batch

/-- A merge of a well-formed response takes exactly one of three paths: the
empty-batch path, the all-duplicates path, or the merge-sort-rebound path. -/
theorem fetchUpdate_ok_cases (st : LokiState) (batch : List LogEntry) (p : Bool) :
    (batch = [] ∧
      fetchUpdate st (.ok batch) p =
        (if p then { st with lokiCanLoadOlder := false } else st, 0)) ∨
    (batch ≠ [] ∧ uniqueOf st batch = [] ∧ fetchUpdate st (.ok batch) p = (st, 0)) ∨
    (batch ≠ [] ∧ uniqueOf st batch ≠ [] ∧
      fetchUpdate st (.ok batch) p =
        ({ st with
            lokiLogs := List.insertionSort tsLE (mergedOf st batch p)
            lokiEarliestMs :=
              (((List.insertionSort tsLE (mergedOf st batch p)).head?.map
                LogEntry.timestamp).getD st.lokiEarliestMs)
            lokiLatestMs :=
              (((List.insertionSort tsLE (mergedOf st batch p)).getLast?.map
                LogEntry.timestamp).getD st.lokiLatestMs) },
          (uniqueOf st batch).length)) := by
  simp only [fetchUpdate, uniqueOf, mergedOf]
  split
  · next h => exact Or.inl ⟨List.isEmpty_iff.mp h, rfl⟩
  · next h =>
    split
    · next h2 =>
      exact Or.inr (Or.inl ⟨by simpa [List.isEmpty_iff] using h, List.isEmpty_iff.mp h2, rfl⟩)
    · next h2 =>
      have hu : batch.filter (fun l => !(st.lokiLogs.map entryKey).contains (entryKey l)) ≠ [] := by
        simpa [List.isEmpty_iff] using h2
      refine Or.inr (Or.inr ⟨by simpa [List.isEmpty_iff] using h, hu, ?_⟩)
      rw [if_pos ?hlen]
      case hlen =>
        rw [List.length_insertionSort]
        have hne2 : ∀ l2 : List LogEntry,
            batch.filter (fun l => !(st.lokiLogs.map entryKey).contains (entryKey l)) ++ l2 ≠ [] ∧
            l2 ++ batch.filter (fun l => !(st.lokiLogs.map entryKey).contains (entryKey l)) ≠ [] := by
          intro l2
          constructor
          · intro hc; exact hu (List.append_eq_nil.mp hc).1
          · intro hc; exact hu (List.append_eq_nil.mp hc).2
        have : (if p then
            (batch.filter (fun l => !(st.lokiLogs.map entryKey).contains (entryKey l)) ++
              st.lokiLogs)
          else
            (st.lokiLogs ++
              batch.filter (fun l => !(st.lokiLogs.map entryKey).contains (entryKey l)))) ≠ [] := by
          cases p
          · exact (hne2 st.lokiLogs).2
          · exact (hne2 st.lokiLogs).1
        exact List.length_pos.mpr this

/-- Membership in `uniqueOf`: exactly the batch entries whose key is absent. -/
theorem mem_uniqueOf {st : LokiState} {batch : List LogEntry} {b : LogEntry} :
    b ∈ uniqueOf st batch ↔
      b ∈ batch ∧ entryKey b ∉ st.lokiLogs.map entryKey := by
  simp [uniqueOf, List.mem_filter, List.contains, List.elem_iff]

/-- After a merge of `batch`, every key of `batch` is present in the Store. -/
theorem fetchUpdate_ok_keys (st : LokiState) (batch : List LogEntry) (p : Bool) :
    ∀ b ∈ batch, entryKey b ∈ ((fetchUpdate st (.ok batch) p).1.lokiLogs.map entryKey) := by
  intro b hb
  rcases fetchUpdate_ok_cases st batch p with ⟨hb0, _⟩ | ⟨_, hu, heq⟩ | ⟨_, _, heq⟩
  · subst hb0; cases hb
  · rw [heq]
    by_contra hmem
    exact (List.eq_nil_iff_forall_not_mem.mp hu b) (mem_uniqueOf.mpr ⟨hb, hmem⟩)
  · rw [heq]
    by_cases hmem : entryKey b ∈ st.lokiLogs.map entryKey
    · obtain ⟨y, hy, hkey⟩ := List.mem_map.mp hmem
      refine List.mem_map.mpr ⟨y, ?_, hkey⟩
      rw [List.mem_insertionSort]
      unfold mergedOf
      cases p
      · exact List.mem_append_left _ hy
      · exact List.mem_append_right _ hy
    · refine List.mem_map.mpr ⟨b, ?_, rfl⟩
      rw [List.mem_insertionSort]
      unfold mergedOf
      have hbu : b ∈ uniqueOf st batch := mem_uniqueOf.mpr ⟨hb, hmem⟩
      cases p
      · exact List.mem_append_right _ hbu
      · exact List.mem_append_left _ hbu

/-- Merging a batch all of whose keys are already in the Store adds nothing and
leaves the sequence and both bounds untouched. -/
theorem fetchUpdate_no_new (st : LokiState) (batch : List LogEntry) (p : Bool)
    (hkeys : ∀ b ∈ batch, entryKey b ∈ st.lokiLogs.map entryKey) :
    (fetchUpdate st (.ok batch) p).2 = 0 ∧
    (fetchUpdate st (.ok batch) p).1.lokiLogs = st.lokiLogs ∧
    (fetchUpdate st (.ok batch) p).1.lokiEarliestMs = st.lokiEarliestMs ∧
    (fetchUpdate st (.ok batch) p).1.lokiLatestMs = st.lokiLatestMs := by
  rcases fetchUpdate_ok_cases st batch p with ⟨_, heq⟩ | ⟨_, _, heq⟩ | ⟨_, hu, heq⟩
  · rw [heq]
    cases p
    · exact ⟨rfl, rfl, rfl, rfl⟩
    · exact ⟨rfl, rfl, rfl, rfl⟩
  · rw [heq]; exact ⟨rfl, rfl, rfl, rfl⟩
  · exfalso
    obtain ⟨b, hbu⟩ := List.exists_mem_of_ne_nil _ hu
    obtain ⟨hb, hmem⟩ := mem_uniqueOf.mp hbu
    exact hmem (hkeys b hb)

/-- C6: merging the same batch twice is idempotent — the second merge of an
identical batch returns 0 added entries and leaves the entry sequence and both
bounds exactly as the first merge left them. -/
theorem claim6_dedup_idempotent (st : LokiState) (batch : List LogEntry) (p1 p2 : Bool) :
    (fetchUpdate (fetchUpdate st (.ok batch) p1).1 (.ok batch) p2).2 = 0 ∧
    (fetchUpdate (fetchUpdate st (.ok batch) p1).1 (.ok batch) p2).1.lokiLogs =
      (fetchUpdate st (.ok batch) p1).1.lokiLogs ∧
    (fetchUpdate (fetchUpdate st (.ok batch) p1).1 (.ok batch) p2).1.lokiEarliestMs =
      (fetchUpdate st (.ok batch) p1).1.lokiEarliestMs ∧
    (fetchUpdate (fetchUpdate st (.ok batch) p1).1 (.ok batch) p2).1.lokiLatestMs =
      (fetchUpdate st (.ok batch) p1).1.lokiLatestMs :=
  fetchUpdate_no_new (fetchUpdate st (.ok batch) p1).1 batch p2
    (fetchUpdate_ok_keys st batch p1)

/-- C7: after every merge that adds at least one entry, `lokiEarliestMs` is the
minimum timestamp among the entries present and `lokiLatestMs` the maximum:
both are attained by entries of the sequence and they bound every entry. -/
theorem claim7_bounds_correct (st : LokiState) (res : FetchOutcome) (p : Bool)
    (h : 1 ≤ (fetchUpdate st res p).2) :
    (∃ e ∈ (fetchUpdate st res p).1.lokiLogs,
        e.timestamp = (fetchUpdate st res p).1.lokiEarliestMs) ∧
    (∃ e ∈ (fetchUpdate st res p).1.lokiLogs,
        e.timestamp = (fetchUpdate st res p).1.lokiLatestMs) ∧
    ∀ e ∈ (fetchUpdate st res p).1.lokiLogs,
      (fetchUpdate st res p).1.lokiEarliestMs ≤ e.timestamp ∧
        e.timestamp ≤ (fetchUpdate st res p).1.lokiLatestMs := by
  cases res with
  | fetchError msg => rw [fetchUpdate_fetchError] at h; simp at h
  | malformed => rw [fetchUpdate_malformed] at h; simp at h
  | ok batch =>
    rcases fetchUpdate_ok_cases st batch p with ⟨_, heq⟩ | ⟨_, _, heq⟩ | ⟨_, hu, heq⟩
    · rw [heq] at h
      cases p
      · simp at h
      · simp at h
    · rw [heq] at h; simp at h
    · have hmne : mergedOf st batch p ≠ [] := by
        unfold mergedOf
        cases p
        · intro hc; exact hu (List.append_eq_nil.mp hc).2
        · intro hc; exact hu (List.append_eq_nil.mp hc).1
      have hsne : List.insertionSort tsLE (mergedOf st batch p) ≠ [] := by
        intro hc
        have hlen := List.length_insertionSort tsLE (mergedOf st batch p)
        rw [hc] at hlen
        exact hmne (List.length_eq_zero.mp hlen.symm)
      have hsorted := List.sorted_insertionSort tsLE (mergedOf st batch p)
      rw [heq, List.head?_eq_head hsne, List.getLast?_eq_getLast _ hsne]
      refine ⟨⟨_, List.head_mem hsne, rfl⟩, ⟨_, List.getLast_mem hsne, rfl⟩, ?_⟩
      intro e he
      exact ⟨sorted_head_le hsorted hsne e he, sorted_le_getLast hsorted hsne e he⟩

/-! ### Operation-level lemmas -/

theorem loadOlderPhase1_eq_some (v : Version) (st : LokiState)
    (h1 : st.lokiLoadingOlder = false) (h2 : st.lokiCanLoadOlder = true)
    (h3 : st.lokiLogs ≠ []) :
    loadOlderPhase1 v st =
      some (⟨st.lokiEarliestMs - 1 - oneHourMs, st.lokiEarliestMs - 1, v.limit,
              v.olderDirection⟩,
            { st with lokiLoadingOlder := true }) := by
  have hlen : st.lokiLogs.length ≠ 0 := fun hc => h3 (List.length_eq_zero.mp hc)
  simp [loadOlderPhase1, h1, h2, hlen]

theorem loadOlderPhase1_none_of_loading (v : Version) (st : LokiState)
    (h : st.lokiLoadingOlder = true) : loadOlderPhase1 v st = none := by
  simp [loadOlderPhase1, h]

theorem loadOlderPhase1_none_of_exhausted (v : Version) (st : LokiState)
    (h : st.lokiCanLoadOlder = false) : loadOlderPhase1 v st = none := by
  simp [loadOlderPhase1, h]

theorem loadOlderLogs_of_none (v : Version) (st : LokiState)
    (backend : LokiQuery → FetchOutcome) (h : loadOlderPhase1 v st = none) :
    loadOlderLogs v st backend = (st, []) := by
  simp [loadOlderLogs, h]

theorem loadNewerPhase1_eq_some (v : Version) (st : LokiState) (now : Int)
    (h : st.lokiLoadingNewer = false) :
    loadNewerPhase1 v st now =
      some (⟨if st.lokiLatestMs > 0 then st.lokiLatestMs + 1 else now - oneHourMs, now,
              v.limit, Direction.forward⟩,
            { st with lokiLoadingNewer := true }) := by
  simp [loadNewerPhase1, h]

theorem loadNewerPhase1_none_of_loading (v : Version) (st : LokiState) (now : Int)
    (h : st.lokiLoadingNewer = true) : loadNewerPhase1 v st now = none := by
  simp [loadNewerPhase1, h]

theorem loadNewerLogs_of_none (v : Version) (st : LokiState) (now : Int)
    (backend : LokiQuery → FetchOutcome) (h : loadNewerPhase1 v st now = none) :
    loadNewerLogs v st now backend = (st, none, []) := by
  simp [loadNewerLogs, h]

/-- Resetting `lokiLoadingNewer` to the value it already had is the identity. -/
theorem reset_loadingNewer (st : LokiState) (h : st.lokiLoadingNewer = false) :
    { st with lokiLoadingNewer := false } = st := by
  obtain ⟨sv, fil, lg, ld, lo, ln, sc, pl, co, em, lm⟩ := st
  cases h
  rfl

theorem reset_loadingOlder (st : LokiState) (h : st.lokiLoadingOlder = false) :
    { st with lokiLoadingOlder := false } = st := by
  obtain ⟨sv, fil, lg, ld, lo, ln, sc, pl, co, em, lm⟩ := st
  cases h
  rfl

theorem loadOlderPhase1_some_inv (v : Version) (st : LokiState) (q : LokiQuery)
    (st1 : LokiState) (h : loadOlderPhase1 v st = some (q, st1)) :
    st.lokiLoadingOlder = false ∧ st.lokiCanLoadOlder = true ∧ st.lokiLogs ≠ [] ∧
    q = ⟨st.lokiEarliestMs - 1 - oneHourMs, st.lokiEarliestMs - 1, v.limit,
          v.olderDirection⟩ ∧
    st1 = { st with lokiLoadingOlder := true } := by
  by_cases hc : (st.lokiLoadingOlder || !st.lokiCanLoadOlder || st.lokiLogs.length == 0) = true
  · rw [loadOlderPhase1, if_pos hc] at h
    cases h
  · have hc' := hc
    simp only [Bool.or_eq_true, not_or, Bool.not_eq_true, Bool.not_eq_true',
      beq_iff_eq] at hc'
    obtain ⟨⟨hlo, hco0⟩, hlen⟩ := hc'
    have hco : st.lokiCanLoadOlder = true := by
      cases hcl : st.lokiCanLoadOlder
      · exact absurd hcl hco0
      · rfl
    have hne : st.lokiLogs ≠ [] := fun hnil => hlen (by rw [hnil]; rfl)
    have := loadOlderPhase1_eq_some v st hlo hco hne
    rw [this] at h
    obtain ⟨rfl, rfl⟩ := Prod.mk.injEq .. ▸ (Option.some.injEq .. ▸ h)
    exact ⟨hlo, hco, hne, rfl, rfl⟩

theorem loadNewerPhase1_some_inv (v : Version) (st : LokiState) (now : Int)
    (q : LokiQuery) (st1 : LokiState) (h : loadNewerPhase1 v st now = some (q, st1)) :
    st.lokiLoadingNewer = false ∧
    q = ⟨if st.lokiLatestMs > 0 then st.lokiLatestMs + 1 else now - oneHourMs, now,
          v.limit, Direction.forward⟩ ∧
    st1 = { st with lokiLoadingNewer := true } := by
  by_cases hc : st.lokiLoadingNewer = true
  · rw [loadNewerPhase1_none_of_loading v st now hc] at h
    cases h
  · have hc' : st.lokiLoadingNewer = false := by simpa using hc
    rw [loadNewerPhase1_eq_some v st now hc'] at h
    obtain ⟨rfl, rfl⟩ := Prod.mk.injEq .. ▸ (Option.some.injEq .. ▸ h)
    exact ⟨hc', rfl, rfl⟩

theorem loadOlderPhase2_logs (st : LokiState) (res : FetchOutcome) :
    (loadOlderPhase2 st res).lokiLogs = (fetchUpdate st res true).1.lokiLogs := by
  simp only [loadOlderPhase2]
  split <;> rfl

theorem loadOlderPhase2_bounds (st : LokiState) (res : FetchOutcome) :
    (loadOlderPhase2 st res).lokiEarliestMs = (fetchUpdate st res true).1.lokiEarliestMs ∧
    (loadOlderPhase2 st res).lokiLatestMs = (fetchUpdate st res true).1.lokiLatestMs := by
  simp only [loadOlderPhase2]
  split <;> exact ⟨rfl, rfl⟩

theorem loadOlderPhase2_filter (st : LokiState) (res : FetchOutcome) :
    (loadOlderPhase2 st res).lokiServiceFilter = st.lokiServiceFilter := by
  have hp := (fetchUpdate_preserves st res true).2.1
  simp only [loadOlderPhase2]
  split <;> exact hp

theorem loadOlderPhase2_canLoadOlder (st : LokiState) (res : FetchOutcome) :
    (loadOlderPhase2 st res).lokiCanLoadOlder =
      if (fetchUpdate st res true).2 = 0 then false
      else (fetchUpdate st res true).1.lokiCanLoadOlder := by
  simp only [loadOlderPhase2]
  split
  · next h => rw [if_pos (by simpa using h)]
  · next h => rw [if_neg (by simpa using h)]

/-- A `loadNewerLogs` whose fetch fails merges nothing: it returns the original
state and a count of 0 (when it fetched at all). -/
theorem loadNewerLogs_err (v : Version) (st : LokiState) (now : Int) (msg : String)
    (backend : LokiQuery → FetchOutcome) (hb : ∀ q, backend q = .fetchError msg)
    (hn : st.lokiLoadingNewer = false) :
    loadNewerLogs v st now backend =
      (st, some 0,
        [⟨if st.lokiLatestMs > 0 then st.lokiLatestMs + 1 else now - oneHourMs, now,
          v.limit, Direction.forward⟩]) := by
  rw [loadNewerLogs, loadNewerPhase1_eq_some v st now hn]
  simp only [loadNewerPhase2, hb, fetchUpdate]
  rw [reset_loadingNewer st hn]

/-- A `loadOlderLogs` whose fetch fails keeps the sequence and bounds but sets
`lokiCanLoadOlder` to false (when it fetched at all). -/
theorem loadOlderLogs_err (v : Version) (st : LokiState) (msg : String)
    (backend : LokiQuery → FetchOutcome) (hb : ∀ q, backend q = .fetchError msg)
    (h1 : st.lokiLoadingOlder = false) (h2 : st.lokiCanLoadOlder = true)
    (h3 : st.lokiLogs ≠ []) :
    loadOlderLogs v st backend =
      ({ st with lokiCanLoadOlder := false },
        [⟨st.lokiEarliestMs - 1 - oneHourMs, st.lokiEarliestMs - 1, v.limit,
          v.olderDirection⟩]) := by
  rw [loadOlderLogs, loadOlderPhase1_eq_some v st h1 h2 h3]
  simp only [loadOlderPhase2, hb, fetchUpdate]
  simp [h1]

/-- The queries issued by `initLokiLogs`, and the fields it always resets. -/
theorem initLokiLogs_fields (v : Version) (st : LokiState) (now : Int)
    (backend : LokiQuery → FetchOutcome) :
    (initLokiLogs v st now backend).2 = [⟨now - oneHourMs, now, v.limit, v.initDirection⟩] ∧
    (initLokiLogs v st now backend).1.lokiCanLoadOlder = true ∧
    (initLokiLogs v st now backend).1.lokiServiceFilter = st.lokiServiceFilter ∧
    (initLokiLogs v st now backend).1.lokiLogs =
      (fetchUpdate { st with lokiLoading := true, lokiLogs := [], lokiCanLoadOlder := true }
        (backend ⟨now - oneHourMs, now, v.limit, v.initDirection⟩) false).1.lokiLogs ∧
    (initLokiLogs v st now backend).1.lokiEarliestMs =
      (fetchUpdate { st with lokiLoading := true, lokiLogs := [], lokiCanLoadOlder := true }
        (backend ⟨now - oneHourMs, now, v.limit, v.initDirection⟩) false).1.lokiEarliestMs ∧
    (initLokiLogs v st now backend).1.lokiLatestMs =
      (fetchUpdate { st with lokiLoading := true, lokiLogs := [], lokiCanLoadOlder := true }
        (backend ⟨now - oneHourMs, now, v.limit, v.initDirection⟩) false).1.lokiLatestMs := by
  refine ⟨rfl, ?_, ?_, rfl, rfl, rfl⟩
  · show (fetchUpdate { st with lokiLoading := true, lokiLogs := [], lokiCanLoadOlder := true }
      (backend ⟨now - oneHourMs, now, v.limit, v.initDirection⟩) false).1.lokiCanLoadOlder = true
    rw [fetchUpdate_append_canLoadOlder]
  · show (fetchUpdate { st with lokiLoading := true, lokiLogs := [], lokiCanLoadOlder := true }
      (backend ⟨now - oneHourMs, now, v.limit, v.initDirection⟩) false).1.lokiServiceFilter =
      st.lokiServiceFilter
    rw [(fetchUpdate_preserves _ _ _).2.1]

/-- When the initial fetch produces no state change (an error or an empty
response), `initLokiLogs` leaves exactly the cleared-but-unzeroed state. -/
theorem initLokiLogs_unchanged (v : Version) (st : LokiState) (now : Int)
    (backend : LokiQuery → FetchOutcome)
    (h0 : (fetchUpdate { st with lokiLoading := true, lokiLogs := [], lokiCanLoadOlder := true }
        (backend ⟨now - oneHourMs, now, v.limit, v.initDirection⟩) false).1 =
      { st with lokiLoading := true, lokiLogs := [], lokiCanLoadOlder := true }) :
    (initLokiLogs v st now backend).1 =
      { st with lokiLoading := false, lokiLogs := [], lokiCanLoadOlder := true } := by
  show ({ (fetchUpdate { st with lokiLoading := true, lokiLogs := [], lokiCanLoadOlder := true }
      (backend ⟨now - oneHourMs, now, v.limit, v.initDirection⟩) false).1 with
    lokiLoading := false }) =
    { st with lokiLoading := false, lokiLogs := [], lokiCanLoadOlder := true }
  rw [h0]

/-- A prepend merge that adds at least one entry does not touch
`lokiCanLoadOlder`. -/
theorem fetchUpdate_pos_canLoadOlder (st : LokiState) (res : FetchOutcome)
    (h : (fetchUpdate st res true).2 ≠ 0) :
    (fetchUpdate st res true).1.lokiCanLoadOlder = st.lokiCanLoadOlder := by
  cases res with
  | fetchError msg => rfl
  | malformed => rfl
  | ok batch =>
    rcases fetchUpdate_ok_cases st batch true with ⟨_, heq⟩ | ⟨_, _, heq⟩ | ⟨_, _, heq⟩
    · rw [heq] at h; simp at h
    · rw [heq] at h; simp at h
    · rw [heq]

/-! ### Concrete material for counterexamples and witnesses -/

/-- A log line with the given timestamp and raw text. -/
def sampleLog (t : Int) (r : String) : LogEntry :=
  ⟨t, r, "ai", ""⟩

/-- The state reached from start-up by one successful append merge of one entry. -/
def oneEntryState : LokiState :=
  (fetchUpdate initialLokiState (.ok [sampleLog 5 "a"]) false).1

/-- A backend whose every fetch fails. -/
def errBackend (msg : String) : LokiQuery → FetchOutcome :=
  fun _ => .fetchError msg

/-- A backend whose every fetch returns the empty log list. -/
def emptyBackend : LokiQuery → FetchOutcome :=
  fun _ => .ok []

/-! ### C1 -/

/-- C1 counterexample: from a reachable one-entry state, a `loadOlder` whose
fetch fails with a `FetchError` does NOT leave `lokiCanLoadOlder` at its
pre-call value — it flips it to false. -/
theorem claim1_counterexample :
    (loadOlderLogs windowVersion oneEntryState (errBackend "boom")).1.lokiCanLoadOlder ≠
      oneEntryState.lokiCanLoadOlder := by decide

/-- C1 (amended): when a fetch fails with a `FetchError`, `loadNewer` returns
0 entries added and leaves the whole state untouched; `loadOlder` leaves the
entry sequence and both bounds untouched but sets `lokiCanLoadOlder` to false
whenever it actually fetched; `initialLoad` keeps both bounds but leaves the
sequence emptied and `lokiCanLoadOlder` reset to true by its pre-fetch clear. -/
theorem claim1_failure_isolation (v : Version) (st : LokiState) (now : Int) (msg : String)
    (backend : LokiQuery → FetchOutcome) (hb : ∀ q, backend q = .fetchError msg) :
    (loadNewerLogs v st now backend).1 = st ∧
    (st.lokiLoadingNewer = false → (loadNewerLogs v st now backend).2.1 = some 0) ∧
    (loadOlderLogs v st backend).1.lokiLogs = st.lokiLogs ∧
    (loadOlderLogs v st backend).1.lokiEarliestMs = st.lokiEarliestMs ∧
    (loadOlderLogs v st backend).1.lokiLatestMs = st.lokiLatestMs ∧
    (st.lokiLoadingOlder = false → st.lokiCanLoadOlder = true → st.lokiLogs ≠ [] →
      (loadOlderLogs v st backend).1.lokiCanLoadOlder = false) ∧
    (initLokiLogs v st now backend).1 =
      { st with lokiLoading := false, lokiLogs := [], lokiCanLoadOlder := true } := by
  have hnewer : (loadNewerLogs v st now backend).1 = st ∧
      (st.lokiLoadingNewer = false → (loadNewerLogs v st now backend).2.1 = some 0) := by
    by_cases hn : st.lokiLoadingNewer = true
    · rw [loadNewerLogs_of_none v st now backend (loadNewerPhase1_none_of_loading v st now hn)]
      exact ⟨rfl, fun hc => by rw [hc] at hn; cases hn⟩
    · have hn' : st.lokiLoadingNewer = false := by simpa using hn
      rw [loadNewerLogs_err v st now msg backend hb hn']
      exact ⟨rfl, fun _ => rfl⟩
  have holder : (loadOlderLogs v st backend).1.lokiLogs = st.lokiLogs ∧
      (loadOlderLogs v st backend).1.lokiEarliestMs = st.lokiEarliestMs ∧
      (loadOlderLogs v st backend).1.lokiLatestMs = st.lokiLatestMs ∧
      (st.lokiLoadingOlder = false → st.lokiCanLoadOlder = true → st.lokiLogs ≠ [] →
        (loadOlderLogs v st backend).1.lokiCanLoadOlder = false) := by
    rcases hphase : loadOlderPhase1 v st with _ | ⟨q, st1⟩
    · rw [loadOlderLogs_of_none v st backend hphase]
      refine ⟨rfl, rfl, rfl, fun h1 h2 h3 => ?_⟩
      rw [loadOlderPhase1_eq_some v st h1 h2 h3] at hphase
      cases hphase
    · obtain ⟨h1, h2, h3, _, _⟩ := loadOlderPhase1_some_inv v st q st1 hphase
      rw [loadOlderLogs_err v st msg backend hb h1 h2 h3]
      exact ⟨rfl, rfl, rfl, fun _ _ _ => rfl⟩
  have hinit : (initLokiLogs v st now backend).1 =
      { st with lokiLoading := false, lokiLogs := [], lokiCanLoadOlder := true } := by
    refine initLokiLogs_unchanged v st now backend ?_
    rw [hb, fetchUpdate_fetchError]
  exact ⟨hnewer.1, hnewer.2, holder.1, holder.2.1, holder.2.2.1, holder.2.2.2, hinit⟩

/-- C1 witness: the amended failure-isolation theorem applied at the concrete
reachable one-entry state and a concrete failing backend. -/
theorem claim1_witness :
    (loadNewerLogs windowVersion oneEntryState 99 (errBackend "boom")).1 = oneEntryState ∧
    (loadOlderLogs windowVersion oneEntryState (errBackend "boom")).1.lokiLogs =
      oneEntryState.lokiLogs ∧
    (loadOlderLogs windowVersion oneEntryState (errBackend "boom")).1.lokiCanLoadOlder =
      false := by
  have h := claim1_failure_isolation windowVersion oneEntryState 99 "boom"
    (errBackend "boom") (fun _ => rfl)
  exact ⟨h.1, h.2.2.1, h.2.2.2.2.2.1 (by decide) (by decide) (by decide)⟩

/-! ### C2 -/

/-- C2 counterexample: a `loadOlder` whose backward fetch returns a non-empty,
all-duplicate batch — not an "explicitly empty log list" — still flips
`lokiCanLoadOlder` from true to false. -/
theorem claim2_counterexample :
    oneEntryState.lokiCanLoadOlder = true ∧
    (loadOlderLogs windowVersion oneEntryState
        (fun _ => .ok [sampleLog 5 "a"])).1.lokiCanLoadOlder = false ∧
    [sampleLog 5 "a"] ≠ ([] : List LogEntry) := by decide

/-- C2 (amended): `lokiCanLoadOlder` transitions from true to false only during
a `loadOlder` whose fetch yielded zero newly merged entries — an empty list, an
all-duplicates batch, a malformed response, or a fetch error alike; no other
operation ever lowers it, `clear`/re-init reset it to true, and once false
every subsequent `loadOlder` returns without issuing a fetch. -/
theorem claim2_exhaustion (v : Version) (st : LokiState) (now : Int)
    (backend : LokiQuery → FetchOutcome) (svc : String) :
    (loadNewerLogs v st now backend).1.lokiCanLoadOlder = st.lokiCanLoadOlder ∧
    (initLokiLogs v st now backend).1.lokiCanLoadOlder = true ∧
    (clearLokiLogs st).lokiCanLoadOlder = true ∧
    (toggleServiceFilter st svc).lokiCanLoadOlder = st.lokiCanLoadOlder ∧
    (∀ q st1, loadOlderPhase1 v st = some (q, st1) →
      ((loadOlderLogs v st backend).1.lokiCanLoadOlder = false ↔
        (fetchUpdate st1 (backend q) true).2 = 0)) ∧
    (st.lokiCanLoadOlder = false → loadOlderLogs v st backend = (st, [])) := by
  refine ⟨?_, (initLokiLogs_fields v st now backend).2.1, rfl, ?_, ?_, ?_⟩
  · rcases hphase : loadNewerPhase1 v st now with _ | ⟨q, st1⟩
    · rw [loadNewerLogs_of_none v st now backend hphase]
    · obtain ⟨hn, _, hst1⟩ := loadNewerPhase1_some_inv v st now q st1 hphase
      rw [loadNewerLogs, hphase]
      show (loadNewerPhase2 st1 (backend q)).1.lokiCanLoadOlder = st.lokiCanLoadOlder
      show (fetchUpdate st1 (backend q) false).1.lokiCanLoadOlder = st.lokiCanLoadOlder
      rw [fetchUpdate_append_canLoadOlder, hst1]
  · simp only [toggleServiceFilter]
    repeat' split
    all_goals rfl
  · intro q st1 hphase
    obtain ⟨h1, h2, h3, _, hst1⟩ := loadOlderPhase1_some_inv v st q st1 hphase
    rw [loadOlderLogs, hphase]
    show (loadOlderPhase2 st1 (backend q)).lokiCanLoadOlder = false ↔
      (fetchUpdate st1 (backend q) true).2 = 0
    rw [loadOlderPhase2_canLoadOlder]
    by_cases hz : (fetchUpdate st1 (backend q) true).2 = 0
    · rw [if_pos hz]
      exact ⟨fun _ => hz, fun _ => rfl⟩
    · rw [if_neg hz]
      have : (fetchUpdate st1 (backend q) true).1.lokiCanLoadOlder = true := by
        rw [fetchUpdate_pos_canLoadOlder st1 (backend q) hz, hst1]
        exact h2
      rw [this]
      exact ⟨(fun hc => nomatch hc), fun hc => absurd hc hz⟩
  · intro hco
    exact loadOlderLogs_of_none v st backend (loadOlderPhase1_none_of_exhausted v st hco)

/-- C2 witness: the amended exhaustion theorem applied at the concrete one-entry
state, plus the no-fetch consequence once the flag is down. -/
theorem claim2_witness :
    ((loadOlderLogs windowVersion oneEntryState (errBackend "x")).1.lokiCanLoadOlder = false ↔
      (fetchUpdate { oneEntryState with lokiLoadingOlder := true }
        (errBackend "x" ⟨oneEntryState.lokiEarliestMs - 1 - oneHourMs,
          oneEntryState.lokiEarliestMs - 1, 50, Direction.backward⟩) true).2 = 0) ∧
    loadOlderLogs windowVersion { oneEntryState with lokiCanLoadOlder := false }
      (errBackend "x") = ({ oneEntryState with lokiCanLoadOlder := false }, []) := by
  have h := claim2_exhaustion windowVersion oneEntryState 99 (errBackend "x") "ai"
  have h2 := claim2_exhaustion windowVersion { oneEntryState with lokiCanLoadOlder := false }
    99 (errBackend "x") "ai"
  exact ⟨h.2.2.2.2.1 _ _ (by decide), h2.2.2.2.2.2 rfl⟩

/-! ### C3 -/

/-- The state reached from start-up by one successful append merge of a single
entry at timestamp 100. -/
def ts100State : LokiState :=
  (fetchUpdate initialLokiState (.ok [sampleLog 100 "m"]) false).1

/-- C3 counterexample: in the module version, a non-no-op `loadOlder` issues its
fetch with direction `forward`, not `backward`. -/
theorem claim3_counterexample :
    (loadOlderLogs moduleVersion ts100State emptyBackend).2 =
      [⟨100 - 1 - oneHourMs, 100 - 1, 500, Direction.forward⟩] ∧
    Direction.forward ≠ Direction.backward := by decide

/-- C3 (amended): whenever `loadOlder` is not a no-op it queries
`endMs = earliestMs − 1`, `startMs = endMs − 3,600,000 ms`, issues exactly one
fetch with the version's older-load direction — `backward` in the window
version but `forward` in the module version — and merges the result with
prepend. -/
theorem claim3_loadOlder_query (v : Version) (st : LokiState)
    (backend : LokiQuery → FetchOutcome)
    (h1 : st.lokiLoadingOlder = false) (h2 : st.lokiCanLoadOlder = true)
    (h3 : st.lokiLogs ≠ []) :
    (loadOlderLogs v st backend).2 =
      [⟨st.lokiEarliestMs - 1 - oneHourMs, st.lokiEarliestMs - 1, v.limit,
        v.olderDirection⟩] ∧
    windowVersion.olderDirection = Direction.backward ∧
    moduleVersion.olderDirection = Direction.forward ∧
    (loadOlderLogs v st backend).1 =
      loadOlderPhase2 { st with lokiLoadingOlder := true }
        (backend ⟨st.lokiEarliestMs - 1 - oneHourMs, st.lokiEarliestMs - 1, v.limit,
          v.olderDirection⟩) ∧
    (loadOlderLogs v st backend).1.lokiLogs =
      (fetchUpdate { st with lokiLoadingOlder := true }
        (backend ⟨st.lokiEarliestMs - 1 - oneHourMs, st.lokiEarliestMs - 1, v.limit,
          v.olderDirection⟩) true).1.lokiLogs := by
  rw [loadOlderLogs, loadOlderPhase1_eq_some v st h1 h2 h3]
  exact ⟨rfl, rfl, rfl, rfl, loadOlderPhase2_logs _ _⟩

/-- C3 witness: the amended query-shape theorem applied to both engine versions
at a concrete reachable state. -/
theorem claim3_witness :
    (loadOlderLogs windowVersion ts100State emptyBackend).2 =
      [⟨ts100State.lokiEarliestMs - 1 - oneHourMs, ts100State.lokiEarliestMs - 1, 50,
        Direction.backward⟩] ∧
    (loadOlderLogs moduleVersion ts100State emptyBackend).2 =
      [⟨ts100State.lokiEarliestMs - 1 - oneHourMs, ts100State.lokiEarliestMs - 1, 500,
        Direction.forward⟩] := by
  have hw := claim3_loadOlder_query windowVersion ts100State emptyBackend
    (by decide) (by decide) (by decide)
  have hm := claim3_loadOlder_query moduleVersion ts100State emptyBackend
    (by decide) (by decide) (by decide)
  exact ⟨hw.1, hm.1⟩

/-! ### C4 -/

/-- The state reached from start-up by one successful append merge of a single
entry at timestamp 42. -/
def ts42State : LokiState :=
  (fetchUpdate initialLokiState (.ok [sampleLog 42 "q"]) false).1

/-- C4 counterexample: `initialLoad` does not zero the bounds — from a reachable
state with bounds 42, an initial load whose fetch returns no entries leaves
both bounds at 42, not 0. -/
theorem claim4_counterexample :
    (initLokiLogs windowVersion ts42State 1000000 emptyBackend).1.lokiLogs = [] ∧
    (initLokiLogs windowVersion ts42State 1000000 emptyBackend).1.lokiEarliestMs = 42 ∧
    (initLokiLogs windowVersion ts42State 1000000 emptyBackend).1.lokiLatestMs = 42 ∧
    (42 : Int) ≠ 0 := by decide

/-- C4 (amended): `initialLoad` first empties the entry sequence and resets
`lokiCanLoadOlder` to true but does not zero the bounds (only `clear()` zeroes
them); it then fetches the default 1-hour window `[now − 3,600,000 ms, now]`
with the version's initial direction and merges without prepend onto the
emptied sequence; if that fetch returns no entries, both bounds keep their
pre-call values, so they are zero only when they were already zero. -/
theorem claim4_initialLoad (v : Version) (st : LokiState) (now : Int)
    (backend : LokiQuery → FetchOutcome) :
    (initLokiLogs v st now backend).2 =
      [⟨now - oneHourMs, now, v.limit, v.initDirection⟩] ∧
    (initLokiLogs v st now backend).1.lokiCanLoadOlder = true ∧
    (initLokiLogs v st now backend).1.lokiLogs =
      (fetchUpdate { st with lokiLoading := true, lokiLogs := [], lokiCanLoadOlder := true }
        (backend ⟨now - oneHourMs, now, v.limit, v.initDirection⟩) false).1.lokiLogs ∧
    (backend ⟨now - oneHourMs, now, v.limit, v.initDirection⟩ = .ok [] →
      (initLokiLogs v st now backend).1 =
        { st with lokiLoading := false, lokiLogs := [], lokiCanLoadOlder := true }) ∧
    (clearLokiLogs st).lokiLogs = [] ∧
    (clearLokiLogs st).lokiEarliestMs = 0 ∧
    (clearLokiLogs st).lokiLatestMs = 0 ∧
    (clearLokiLogs st).lokiCanLoadOlder = true := by
  have hf := initLokiLogs_fields v st now backend
  refine ⟨hf.1, hf.2.1, hf.2.2.2.1, ?_, rfl, rfl, rfl, rfl⟩
  intro hok
  refine initLokiLogs_unchanged v st now backend ?_
  rw [hok]
  rfl

/-- C4 witness: the amended initial-load theorem applied at a concrete state
with nonzero bounds and an empty-result backend. -/
theorem claim4_witness :
    (initLokiLogs windowVersion ts42State 1000000 emptyBackend).2 =
      [⟨1000000 - oneHourMs, 1000000, 50, Direction.backward⟩] ∧
    (initLokiLogs windowVersion ts42State 1000000 emptyBackend).1 =
      { ts42State with lokiLoading := false, lokiLogs := [], lokiCanLoadOlder := true } := by
  have h := claim4_initialLoad windowVersion ts42State 1000000 emptyBackend
  exact ⟨h.1, h.2.2.2.1 rfl⟩

/-! ### C8 -/

/-- The state reached from start-up by one successful append merge of a single
entry at timestamp 0: the window is non-empty while `lokiLatestMs = 0`. -/
def ts0State : LokiState :=
  (fetchUpdate initialLokiState (.ok [sampleLog 0 "z"]) false).1

/-- C8 counterexample: with a non-empty window holding one entry at timestamp
0, `loadNewer` queries `startMs = now − 3,600,000` (the empty-window formula),
not `latestMs + 1 = 1`: the code tests `lokiLatestMs > 0`, not window
emptiness. -/
theorem claim8_counterexample :
    ts0State.lokiLogs ≠ [] ∧
    (loadNewerLogs windowVersion ts0State 7200000 emptyBackend).2.2 =
      [⟨7200000 - oneHourMs, 7200000, 50, Direction.forward⟩] ∧
    (7200000 - oneHourMs : Int) ≠ ts0State.lokiLatestMs + 1 := by decide

/-- C8 (amended): whenever `loadNewer` is not a no-op it issues exactly one
fetch with `startMs = latestMs + 1` if `latestMs > 0` and
`startMs = now − 3,600,000 ms` otherwise (the code tests the latest bound, not
window emptiness), `endMs = now`, direction forward; it merges without prepend
and returns the count of newly merged entries. -/
theorem claim8_loadNewer (v : Version) (st : LokiState) (now : Int)
    (backend : LokiQuery → FetchOutcome) (h : st.lokiLoadingNewer = false) :
    (loadNewerLogs v st now backend).2.2 =
      [⟨if st.lokiLatestMs > 0 then st.lokiLatestMs + 1 else now - oneHourMs, now,
        v.limit, Direction.forward⟩] ∧
    (loadNewerLogs v st now backend).2.1 =
      some ((fetchUpdate { st with lokiLoadingNewer := true }
        (backend ⟨if st.lokiLatestMs > 0 then st.lokiLatestMs + 1 else now - oneHourMs,
          now, v.limit, Direction.forward⟩) false).2) ∧
    (loadNewerLogs v st now backend).1.lokiLogs =
      (fetchUpdate { st with lokiLoadingNewer := true }
        (backend ⟨if st.lokiLatestMs > 0 then st.lokiLatestMs + 1 else now - oneHourMs,
          now, v.limit, Direction.forward⟩) false).1.lokiLogs := by
  rw [loadNewerLogs, loadNewerPhase1_eq_some v st now h]
  exact ⟨rfl, rfl, rfl⟩

/-- C8 witness: the amended load-newer theorem applied at a concrete state with
a positive latest bound. -/
theorem claim8_witness :
    (loadNewerLogs windowVersion ts100State 7200000 emptyBackend).2.2 =
      [⟨if ts100State.lokiLatestMs > 0 then ts100State.lokiLatestMs + 1
          else 7200000 - oneHourMs, 7200000, 50, Direction.forward⟩] := by
  exact (claim8_loadNewer windowVersion ts100State 7200000 emptyBackend (by decide)).1

/-- C7 witness: the bounds-correctness theorem applied to a concrete two-entry
merge (delivered out of order) from the empty start-up state. -/
theorem claim7_witness :
    (∃ e ∈ (fetchUpdate initialLokiState (.ok [sampleLog 5 "a", sampleLog 3 "b"])
        false).1.lokiLogs,
      e.timestamp = (fetchUpdate initialLokiState (.ok [sampleLog 5 "a", sampleLog 3 "b"])
        false).1.lokiEarliestMs) ∧
    (∃ e ∈ (fetchUpdate initialLokiState (.ok [sampleLog 5 "a", sampleLog 3 "b"])
        false).1.lokiLogs,
      e.timestamp = (fetchUpdate initialLokiState (.ok [sampleLog 5 "a", sampleLog 3 "b"])
        false).1.lokiLatestMs) ∧
    ∀ e ∈ (fetchUpdate initialLokiState (.ok [sampleLog 5 "a", sampleLog 3 "b"])
        false).1.lokiLogs,
      (fetchUpdate initialLokiState (.ok [sampleLog 5 "a", sampleLog 3 "b"])
        false).1.lokiEarliestMs ≤ e.timestamp ∧
      e.timestamp ≤ (fetchUpdate initialLokiState (.ok [sampleLog 5 "a", sampleLog 3 "b"])
        false).1.lokiLatestMs :=
  claim7_bounds_correct initialLokiState (.ok [sampleLog 5 "a", sampleLog 3 "b"]) false
    (by decide)

/-! ### C9 -/

/-- C9: while an older-load (resp. newer-load) is in flight, a further call to
the same operation returns at once without issuing a fetch — so two concurrent
same-direction calls produce exactly the one fetch of the first call — while
the two directions' guards are independent: with an older-load outstanding a
newer-load still starts, and vice versa. -/
theorem claim9_inflight_guard (v : Version) (st : LokiState) (now : Int)
    (backend : LokiQuery → FetchOutcome) :
    (st.lokiLoadingOlder = true → loadOlderLogs v st backend = (st, [])) ∧
    (st.lokiLoadingNewer = true → loadNewerLogs v st now backend = (st, none, [])) ∧
    (∀ q st1, loadOlderPhase1 v st = some (q, st1) →
      st1.lokiLoadingOlder = true ∧
      loadOlderLogs v st1 backend = (st1, []) ∧
      st1.lokiLoadingNewer = st.lokiLoadingNewer ∧
      (st.lokiLoadingNewer = false →
        ∃ q2 st2, loadNewerPhase1 v st1 now = some (q2, st2))) ∧
    (∀ q st1, loadNewerPhase1 v st now = some (q, st1) →
      st1.lokiLoadingNewer = true ∧
      loadNewerLogs v st1 now backend = (st1, none, []) ∧
      st1.lokiLoadingOlder = st.lokiLoadingOlder ∧
      (st.lokiLoadingOlder = false → st.lokiCanLoadOlder = true → st.lokiLogs ≠ [] →
        ∃ q2 st2, loadOlderPhase1 v st1 = some (q2, st2))) := by
  refine ⟨?_, ?_, ?_, ?_⟩
  · intro h
    exact loadOlderLogs_of_none v st backend (loadOlderPhase1_none_of_loading v st h)
  · intro h
    exact loadNewerLogs_of_none v st now backend (loadNewerPhase1_none_of_loading v st now h)
  · intro q st1 hphase
    obtain ⟨h1, h2, h3, _, hst1⟩ := loadOlderPhase1_some_inv v st q st1 hphase
    subst hst1
    refine ⟨rfl,
      loadOlderLogs_of_none v _ backend (loadOlderPhase1_none_of_loading v _ rfl),
      rfl, ?_⟩
    intro hn
    exact ⟨_, _, loadNewerPhase1_eq_some v _ now hn⟩
  · intro q st1 hphase
    obtain ⟨h1, _, hst1⟩ := loadNewerPhase1_some_inv v st now q st1 hphase
    subst hst1
    refine ⟨rfl,
      loadNewerLogs_of_none v _ now backend (loadNewerPhase1_none_of_loading v _ now rfl),
      rfl, ?_⟩
    intro hlo hco hlg
    exact ⟨_, _, loadOlderPhase1_eq_some v _ hlo hco hlg⟩

/-- C9 witness: with an older-load outstanding on a concrete state, a second
`loadOlder` call returns unchanged with no outbound query, while a newer-load
still starts. -/
theorem claim9_witness :
    loadOlderLogs windowVersion { oneEntryState with lokiLoadingOlder := true }
      emptyBackend = ({ oneEntryState with lokiLoadingOlder := true }, []) ∧
    (∃ q2 st2, loadNewerPhase1 windowVersion
      { oneEntryState with lokiLoadingOlder := true } 99 = some (q2, st2)) := by
  have h := claim9_inflight_guard windowVersion oneEntryState 99 emptyBackend
  have h3 := h.2.2.1
    ⟨oneEntryState.lokiEarliestMs - 1 - oneHourMs, oneEntryState.lokiEarliestMs - 1, 50,
      Direction.backward⟩
    { oneEntryState with lokiLoadingOlder := true } (by decide)
  exact ⟨h3.2.1, h3.2.2.2 (by decide)⟩

/-! ### C10 -/

/-- `toggleServiceFilter` keeps the filter non-empty. -/
theorem toggle_filter_ne_nil (st : LokiState) (svc : String)
    (h : st.lokiServiceFilter ≠ []) :
    (toggleServiceFilter st svc).lokiServiceFilter ≠ [] := by
  simp only [toggleServiceFilter]
  split
  · next hc =>
    split
    · next hlen =>
      show st.lokiServiceFilter.erase svc ≠ []
      rw [List.erase_ne_nil]
      refine ⟨h, fun hone => ?_⟩
      rw [hone] at hlen
      simp at hlen
    · exact h
  · next hc =>
    show st.lokiServiceFilter ++ [svc] ≠ []
    simp

/-- Every action of the engine keeps the filter non-empty. -/
theorem stepAct_filter_ne_nil (v : Version) (st : LokiState) (act : Act)
    (h : st.lokiServiceFilter ≠ []) :
    (stepAct v st act).lokiServiceFilter ≠ [] := by
  cases act with
  | init now backend =>
    show (initLokiLogs v st now backend).1.lokiServiceFilter ≠ []
    rw [(initLokiLogs_fields v st now backend).2.2.1]
    exact h
  | older backend =>
    show (loadOlderLogs v st backend).1.lokiServiceFilter ≠ []
    rcases hphase : loadOlderPhase1 v st with _ | ⟨q, st1⟩
    · rw [loadOlderLogs_of_none v st backend hphase]; exact h
    · obtain ⟨_, _, _, _, hst1⟩ := loadOlderPhase1_some_inv v st q st1 hphase
      rw [loadOlderLogs, hphase]
      show (loadOlderPhase2 st1 (backend q)).lokiServiceFilter ≠ []
      rw [loadOlderPhase2_filter, hst1]
      exact h
  | newer now backend =>
    show (loadNewerLogs v st now backend).1.lokiServiceFilter ≠ []
    rcases hphase : loadNewerPhase1 v st now with _ | ⟨q, st1⟩
    · rw [loadNewerLogs_of_none v st now backend hphase]; exact h
    · obtain ⟨_, _, hst1⟩ := loadNewerPhase1_some_inv v st now q st1 hphase
      rw [loadNewerLogs, hphase]
      show (fetchUpdate st1 (backend q) false).1.lokiServiceFilter ≠ []
      rw [(fetchUpdate_preserves st1 (backend q) false).2.1, hst1]
      exact h
  | clear => exact h
  | toggle svc => exact toggle_filter_ne_nil st svc h

/-- Any action sequence keeps the filter non-empty. -/
theorem runActs_filter_ne_nil (v : Version) (acts : List Act) :
    ∀ st : LokiState, st.lokiServiceFilter ≠ [] →
      (runActs v st acts).lokiServiceFilter ≠ [] := by
  induction acts with
  | nil => exact fun _ h => h
  | cons a rest ih => exact fun st h => ih _ (stepAct_filter_ne_nil v st a h)

/-- C10: in every state reachable from start-up the service filter holds at
least one service: `toggleServiceFilter` removes a selected service only when
more than one is selected, leaves a lone selected service alone, and appends an
unselected one — so the filter can never be emptied by deselecting every
service. -/
theorem claim10_service_filter (v : Version) (st : LokiState) (svc : String)
    (acts : List Act) :
    (runActs v initialLokiState acts).lokiServiceFilter ≠ [] ∧
    (st.lokiServiceFilter.contains svc = true → st.lokiServiceFilter.length > 1 →
      (toggleServiceFilter st svc).lokiServiceFilter = st.lokiServiceFilter.erase svc) ∧
    (st.lokiServiceFilter.contains svc = true → ¬ st.lokiServiceFilter.length > 1 →
      toggleServiceFilter st svc = st) ∧
    (st.lokiServiceFilter.contains svc = false →
      (toggleServiceFilter st svc).lokiServiceFilter = st.lokiServiceFilter ++ [svc]) := by
  refine ⟨runActs_filter_ne_nil v acts initialLokiState (by decide), ?_, ?_, ?_⟩
  · intro hc hlen
    rw [List.contains, List.elem_iff] at hc
    simp [toggleServiceFilter, hc, hlen]
  · intro hc hlen
    rw [List.contains, List.elem_iff] at hc
    simp [toggleServiceFilter, hc, hlen]
  · intro hc
    have hmem : svc ∉ st.lokiServiceFilter := by
      intro hmem
      rw [List.contains] at hc
      rw [List.elem_eq_mem, decide_eq_false_iff_not] at hc
      exact hc hmem
    simp [toggleServiceFilter, hmem]

/-- C10 witness: deselecting all three default services one by one still leaves
the filter non-empty, and the two toggle modes behave as stated. -/
theorem claim10_witness :
    (toggleServiceFilter initialLokiState "ai").lokiServiceFilter =
      initialLokiState.lokiServiceFilter.erase "ai" ∧
    (toggleServiceFilter initialLokiState "extra").lokiServiceFilter =
      initialLokiState.lokiServiceFilter ++ ["extra"] ∧
    (runActs windowVersion initialLokiState
      [Act.toggle "ai", Act.toggle "base", Act.toggle "server"]).lokiServiceFilter ≠ [] := by
  have h := claim10_service_filter windowVersion initialLokiState "ai"
    [Act.toggle "ai", Act.toggle "base", Act.toggle "server"]
  have h2 := claim10_service_filter windowVersion initialLokiState "extra" []
  exact ⟨h.2.1 (by decide) (by decide), h2.2.2.2 (by decide), h.1⟩

end TrueLove
